import Mathlib

/-!
Verification development for the keno-stats repository.

The Python scripts under `scripts/` are shallowly embedded as Lean
definitions: a draw round becomes a `RoundData` record, a configuration a
`Config` record, the stateful `MomentumPatternGenerator` an explicit state
record threaded through `get_pattern`, Python `float` arithmetic becomes
exact `ℚ` arithmetic, and Python's `random.shuffle` becomes an explicit
`shuffled` list parameter (the injectable random source).  Python's
`sorted` (a stable sort) is embedded as `List.insertionSort`, which has the
same stable semantics.
-/

namespace KenoStats

/-- One historical draw record, as loaded from JSON: either a `drawn` field
is present, or the drawn set is reconstructed from `hits ++ misses`. -/
structure RoundData where
  drawn : Option (List ℕ)
  hits : List ℕ
  misses : List ℕ
deriving DecidableEq, Repr

/-- Shorthand for a round given directly by its drawn list. -/
def R (l : List ℕ) : RoundData := ⟨some l, [], []⟩

/-- Embeds `get_drawn_numbers` (scripts/backtest-momentum.py:66-71). -/
def get_drawn_numbers (r : RoundData) : List ℕ :=
  match r.drawn with
  | some d => d
  | none => (r.hits ++ r.misses).insertionSort (· ≤ ·)

/-- The configuration dict of `MomentumPatternGenerator.__init__`
(scripts/backtest-momentum.py:79-87). -/
structure Config where
  pattern_size : ℕ
  detection_window : ℕ
  baseline_window : ℕ
  momentum_threshold : ℚ
  refresh_frequency : ℕ
  top_n_pool : ℕ

/-- Python's `l[-k:]` slice for `k` a nonnegative count: for `k = 0` Python
yields `l[0:] = l`, otherwise the last `k` elements (all of `l` when
`k ≥ len(l)`). -/
def lastSlice {α : Type} (l : List α) (k : ℕ) : List α :=
  if k = 0 then l else l.drop (l.length - k)

/-- The `recent_count` sum in `calculate_momentum`
(scripts/backtest-momentum.py:155-156). -/
def recent_count (cfg : Config) (number : ℕ) (history : List RoundData) : ℕ :=
  (lastSlice history cfg.detection_window).countP
    (fun r => decide (number ∈ get_drawn_numbers r))

/-- The `baseline_count` sum in `calculate_momentum`
(scripts/backtest-momentum.py:157-158). -/
def baseline_count (cfg : Config) (number : ℕ) (history : List RoundData) : ℕ :=
  (lastSlice history cfg.baseline_window).countP
    (fun r => decide (number ∈ get_drawn_numbers r))

/-- Embeds `MomentumPatternGenerator.calculate_momentum`
(scripts/backtest-momentum.py:143-169).  `None` becomes `none`; the
frequencies are exact rationals. -/
def calculate_momentum (cfg : Config) (number : ℕ) (history : List RoundData) :
    Option ℚ :=
  if history.length < cfg.baseline_window then none
  else
    let rc := recent_count cfg number history
    let bc := baseline_count cfg number history
    let recent_freq : ℚ := (rc : ℚ) / (cfg.detection_window : ℚ)
    let baseline_freq : ℚ := (bc : ℚ) / (cfg.baseline_window : ℚ)
    if baseline_freq = 0 then (if 0 < rc then some 999 else some 0)
    else some (recent_freq / baseline_freq)

/-- Embeds `MomentumPatternGenerator.identify_hot_numbers`
(scripts/backtest-momentum.py:131-141): all numbers 1..40 whose momentum is
defined and at least the threshold, sorted by momentum descending (Python's
`sorted(..., reverse=True)` is stable, as is `insertionSort`). -/
def identify_hot_numbers (cfg : Config) (history : List RoundData) :
    List (ℕ × ℚ) :=
  let hot := (List.range' 1 40).filterMap (fun number =>
    match calculate_momentum cfg number history with
    | some m => if cfg.momentum_threshold ≤ m then some (number, m) else none
    | none => none)
  hot.insertionSort (fun a b => b.2 ≤ a.2)

/-- Embeds `MomentumPatternGenerator.get_most_frequent_numbers`
(scripts/backtest-momentum.py:171-189): occurrence counts over the baseline
window for the closed key universe 1..40, excluded numbers removed, sorted
by count descending (stable), truncated to `count`, numbers only. -/
def get_most_frequent_numbers (cfg : Config) (history : List RoundData)
    (count : ℕ) (exclude : List ℕ) : List ℕ :=
  let baseline_rounds := lastSlice history cfg.baseline_window
  let freqOf : ℕ → ℕ := fun n =>
    (baseline_rounds.map (fun r => (get_drawn_numbers r).count n)).sum
  let pairs := (List.range' 1 40).filterMap (fun n =>
    if n ∈ exclude then none else some (n, freqOf n))
  ((pairs.insertionSort (fun a b => b.2 ≤ a.2)).take count).map Prod.fst

/-- Embeds `MomentumPatternGenerator.generate_pattern`
(scripts/backtest-momentum.py:113-129). -/
def generate_pattern (cfg : Config) (history : List RoundData) : List ℕ :=
  let hot_numbers := identify_hot_numbers cfg history
  let top_candidates := hot_numbers.take cfg.top_n_pool
  let pat := (top_candidates.take cfg.pattern_size).map Prod.fst
  let pat2 :=
    if pat.length < cfg.pattern_size then
      pat ++ get_most_frequent_numbers cfg history
        (cfg.pattern_size - pat.length) pat
    else pat
  pat2.insertionSort (· ≤ ·)

/-- Embeds `MomentumPatternGenerator.get_random_pattern`
(scripts/backtest-momentum.py:198-203).  `random.shuffle` is modelled by the
explicit `shuffled` argument standing for the shuffled copy of `[1..40]`. -/
def get_random_pattern (cfg : Config) (shuffled : List ℕ) : List ℕ :=
  (shuffled.take cfg.pattern_size).insertionSort (· ≤ ·)

/-- Embeds `MomentumPatternGenerator.get_fallback_pattern`
(scripts/backtest-momentum.py:191-196). -/
def get_fallback_pattern (cfg : Config) (shuffled : List ℕ)
    (history : List RoundData) : List ℕ :=
  if history.length = 0 then get_random_pattern cfg shuffled
  else get_most_frequent_numbers cfg history cfg.pattern_size []

/-- The mutable state of a `MomentumPatternGenerator` instance
(scripts/backtest-momentum.py:88-89). -/
structure GenState where
  current_pattern : List ℕ
  last_refresh_round : ℕ
deriving DecidableEq, Repr

/-- The initial generator state set in `__init__`. -/
def GenState.init : GenState := ⟨[], 0⟩

/-- Embeds `MomentumPatternGenerator.get_pattern`
(scripts/backtest-momentum.py:91-111) as an explicit state transition
returning the produced pattern together with the updated state. -/
def get_pattern (cfg : Config) (shuffled : List ℕ) (s : GenState)
    (history : List RoundData) (current_round_number : ℕ) :
    List ℕ × GenState :=
  let should_refresh :=
    s.current_pattern.length = 0 ∨
      current_round_number % cfg.refresh_frequency = 0
  if should_refresh then
    if history.length < cfg.baseline_window then
      (get_fallback_pattern cfg shuffled history, s)
    else
      let p := generate_pattern cfg history
      (p, ⟨p, current_round_number⟩)
  else (s.current_pattern, s)

/-- A sequence of `get_pattern` calls on one generator instance at
consecutive round numbers `start, start+1, ...`, one history per call;
returns the produced patterns and the final state. -/
def runCallsFrom (cfg : Config) (shuffled : List ℕ) (s : GenState) :
    List (List RoundData) → ℕ → List (List ℕ) × GenState
  | [], _ => ([], s)
  | h :: rest, start =>
    let pr := get_pattern cfg shuffled s h start
    let ps := runCallsFrom cfg shuffled pr.2 rest (start + 1)
    (pr.1 :: ps.1, ps.2)

/-- The payout table: `bet_multis.get(difficulty, {}).get(str(K), {}).get(str(h), 0)`
is a total lookup with default 0, so the table is modelled as a total
function (difficulty, pattern size, hit count) → multiplier. -/
def PayoutTable : Type := String → ℕ → ℕ → ℚ

/-- Result triple of `evaluate_pattern_performance`. -/
structure EvalOutcome where
  completed : Bool
  rounds_to_hit : ℕ
  profit : ℚ
deriving DecidableEq, Repr

/-- The first `for rounds_ahead, round_data in enumerate(future_rounds, 1)`
loop of `evaluate_pattern_performance` (scripts/backtest-momentum.py:230-242):
1-based index of the first round whose drawn set contains the pattern. -/
def completionIndex (pset : Finset ℕ) : List RoundData → Option ℕ
  | [] => none
  | r :: rest =>
    if pset ⊆ (get_drawn_numbers r).toFinset then some 1
    else (completionIndex pset rest).map (· + 1)

/-- The second loop of `evaluate_pattern_performance`
(scripts/backtest-momentum.py:248-257): running best partial-hit profit,
started at `-lookahead_rounds`, scanning the whole window. -/
def bestSubProfit (pm : PayoutTable) (difficulty : String) (psize : ℕ)
    (pset : Finset ℕ) : List RoundData → ℕ → ℚ → ℚ
  | [], _, best => best
  | r :: rest, idx, best =>
    let hits := (pset ∩ (get_drawn_numbers r).toFinset).card
    let best' :=
      if 0 < hits then
        let m := pm difficulty psize hits
        if 0 < m then max best (m - (idx : ℚ)) else best
      else best
    bestSubProfit pm difficulty psize pset rest (idx + 1) best'

/-- Embeds `evaluate_pattern_performance`
(scripts/backtest-momentum.py:218-261). -/
def evaluate_pattern_performance (history : List RoundData) (pattern : List ℕ)
    (lookahead_rounds : ℕ) (bet_multis : Option PayoutTable)
    (difficulty : String) : EvalOutcome :=
  if history.length < lookahead_rounds then ⟨false, 0, 0⟩
  else
    let future_rounds := history.take lookahead_rounds
    let pset := pattern.toFinset
    match completionIndex pset future_rounds with
    | some k =>
      let profit : ℚ :=
        match bet_multis with
        | some pm => pm difficulty pattern.length pattern.length - (k : ℚ)
        | none => 0
      ⟨true, k, profit⟩
    | none =>
      match bet_multis with
      | some pm =>
        ⟨false, 0, bestSubProfit pm difficulty pattern.length pset
          future_rounds 1 (-(lookahead_rounds : ℚ))⟩
      | none => ⟨false, 0, 0⟩

/-- Accumulator of the per-pattern loop in `evaluate_predictions`
(scripts/optimize-pattern-params.py:142-191). -/
structure PredAccum where
  successes : ℕ
  maintaining : ℕ
  rounds_to_hit : List ℕ
  profits : List ℚ
deriving DecidableEq, Repr

/-- The early-exit partial-hit scan of `evaluate_predictions`
(scripts/optimize-pattern-params.py:174-187): like `bestSubProfit` but the
scan `break`s as soon as a non-negative profit is found. -/
def earlyBestSub (pm : PayoutTable) (difficulty : String) (psize : ℕ)
    (pset : Finset ℕ) : List RoundData → ℕ → ℚ → ℚ
  | [], _, best => best
  | r :: rest, idx, best =>
    let hits := (pset ∩ (get_drawn_numbers r).toFinset).card
    if 0 < hits then
      let m := pm difficulty psize hits
      if 0 < m then
        let profit := m - (idx : ℚ)
        let best' := max best profit
        if 0 ≤ profit then best'
        else earlyBestSub pm difficulty psize pset rest (idx + 1) best'
      else earlyBestSub pm difficulty psize pset rest (idx + 1) best
    else earlyBestSub pm difficulty psize pset rest (idx + 1) best

/-- One iteration of the `for pattern_obj in patterns` loop of
`evaluate_predictions` (scripts/optimize-pattern-params.py:147-191). -/
def predStep (future : List RoundData) (lookahead_rounds psize : ℕ)
    (bet_multis : Option PayoutTable) (difficulty : String)
    (acc : PredAccum) (pattern : List ℕ) : PredAccum :=
  let pset := pattern.toFinset
  match completionIndex pset future with
  | some k =>
    let acc1 : PredAccum :=
      { acc with successes := acc.successes + 1,
                 rounds_to_hit := acc.rounds_to_hit ++ [k] }
    match bet_multis with
    | some pm =>
      let profit := pm difficulty psize psize - (k : ℚ)
      { acc1 with profits := acc1.profits ++ [profit],
                  maintaining :=
                    acc1.maintaining + (if 0 ≤ profit then 1 else 0) }
    | none => acc1
  | none =>
    match bet_multis with
    | some pm =>
      let best := earlyBestSub pm difficulty psize pset future 1
        (-(lookahead_rounds : ℚ))
      { acc with profits := acc.profits ++ [best],
                 maintaining :=
                   acc.maintaining + (if 0 ≤ best then 1 else 0) }
    | none => acc

/-- Embeds `evaluate_predictions` (scripts/optimize-pattern-params.py:132-197);
the returned quintuple is `(predictions_made, successes, avg_rounds,
maintaining, avg_profit)`. -/
def evaluate_predictions (history : List RoundData) (current_idx : ℕ)
    (patterns : List (List ℕ)) (lookahead_rounds psize : ℕ)
    (bet_multis : Option PayoutTable) (difficulty : String) :
    ℕ × ℕ × ℚ × ℕ × ℚ :=
  if history.length < current_idx + lookahead_rounds then (0, 0, 0, 0, 0)
  else
    let future := (history.drop current_idx).take lookahead_rounds
    let acc := patterns.foldl
      (predStep future lookahead_rounds psize bet_multis difficulty)
      ⟨0, 0, [], []⟩
    let avg_rounds : ℚ :=
      if acc.rounds_to_hit.isEmpty then 0
      else ((acc.rounds_to_hit.map (fun n => (n : ℚ))).sum) /
        (acc.rounds_to_hit.length : ℚ)
    let avg_profit : ℚ :=
      if acc.profits.isEmpty then 0
      else acc.profits.sum / (acc.profits.length : ℚ)
    (patterns.length, acc.successes, avg_rounds, acc.maintaining, avg_profit)

/-- Specification-side list of qualifying partial-hit profits over a forward
window (1-based indexing from `idx`): one entry `multiplier − index` for
every round whose hit count is positive and whose payout multiplier is
positive.  This is the search space of the claimed "best partial profit". -/
def subHitProfits (pm : PayoutTable) (difficulty : String) (psize : ℕ)
    (pset : Finset ℕ) : List RoundData → ℕ → List ℚ
  | [], _ => []
  | r :: rest, idx =>
    let hits := (pset ∩ (get_drawn_numbers r).toFinset).card
    let tail := subHitProfits pm difficulty psize pset rest (idx + 1)
    if 0 < hits ∧ 0 < pm difficulty psize hits then
      (pm difficulty psize hits - (idx : ℚ)) :: tail
    else tail

/-- Specification-side truncation of `subHitProfits` at the first
non-negative entry: the qualifying profits actually examined by the
early-exit scan of `evaluate_predictions`. -/
def subHitProfitsUpToNonneg (pm : PayoutTable) (difficulty : String)
    (psize : ℕ) (pset : Finset ℕ) : List RoundData → ℕ → List ℚ
  | [], _ => []
  | r :: rest, idx =>
    let hits := (pset ∩ (get_drawn_numbers r).toFinset).card
    if 0 < hits ∧ 0 < pm difficulty psize hits then
      let profit := pm difficulty psize hits - (idx : ℚ)
      if 0 ≤ profit then [profit]
      else profit :: subHitProfitsUpToNonneg pm difficulty psize pset rest (idx + 1)
    else subHitProfitsUpToNonneg pm difficulty psize pset rest (idx + 1)

/-- The `pattern_scores` defaultdict of `find_common_patterns`, as an
insertion-ordered association list: `bumpScore m key w` adds `w` to the
entry of `key`, appending a fresh entry when the key is absent. -/
def bumpScore : List (List ℕ × ℚ) → List ℕ → ℚ → List (List ℕ × ℚ)
  | [], key, w => [(key, w)]
  | (k, v) :: rest, key, w =>
    if k = key then (k, v + w) :: rest else (k, v) :: bumpScore rest key w

/-- Lookup in the score map (0 for an absent key, like `defaultdict(float)`). -/
def scoreOf : List (List ℕ × ℚ) → List ℕ → ℚ
  | [], _ => 0
  | (k, v) :: rest, key => if k = key then v else scoreOf rest key

/-- The `for idx, round_data in enumerate(sample)` accumulation loop of
`find_common_patterns` (scripts/optimize-pattern-params.py:93-107): for each
round, every `pattern_size`-combination of its drawn list is keyed by its
sorted form and credited `weight` (1 unweighted, `decay ^ rounds_ago` under
recency weighting). -/
def accumRounds (psize : ℕ) (use_recency : Bool) (decay : ℚ) (total : ℕ) :
    List RoundData → ℕ → List (List ℕ × ℚ) → List (List ℕ × ℚ)
  | [], _, m => m
  | r :: rest, idx, m =>
    let w : ℚ := if use_recency then decay ^ (total - idx - 1) else 1
    let combos := List.sublistsLen psize (get_drawn_numbers r)
    accumRounds psize use_recency decay total rest (idx + 1)
      (combos.foldl (fun m c => bumpScore m (c.insertionSort (· ≤ ·)) w) m)

/-- The fully accumulated score map of `find_common_patterns` over the
discovery window. -/
def discoveryScores (history : List RoundData) (psize discovery_window : ℕ)
    (use_recency : Bool) (decay : ℚ) : List (List ℕ × ℚ) :=
  let sample := lastSlice history discovery_window
  accumRounds psize use_recency decay sample.length sample 0 []

/-- Embeds `find_common_patterns` (scripts/optimize-pattern-params.py:79-111):
scores sorted descending (stable), truncated to `top_n`; each entry is the
`{'numbers': ..., 'count': ...}` pair. -/
def find_common_patterns (history : List RoundData)
    (psize top_n discovery_window : ℕ) (use_recency : Bool) (decay : ℚ) :
    List (List ℕ × ℚ) :=
  ((discoveryScores history psize discovery_window use_recency
      decay).insertionSort (fun a b => b.2 ≤ a.2)).take top_n

/-- Specification-side score of one pattern key: the sum, over the rounds of
the window (0-based position `idx`, window length `total`), of the round's
weight times the number of `psize`-combinations of its drawn list whose
sorted form equals the key. -/
def specScoreFrom (psize : ℕ) (use_recency : Bool) (decay : ℚ) (total : ℕ) :
    List RoundData → ℕ → List ℕ → ℚ
  | [], _, _ => 0
  | r :: rest, idx, key =>
    (if use_recency then decay ^ (total - idx - 1) else 1) *
      (((List.sublistsLen psize (get_drawn_numbers r)).countP
        (fun c => decide (c.insertionSort (· ≤ ·) = key))) : ℚ) +
    specScoreFrom psize use_recency decay total rest (idx + 1) key

/-- Embeds `check_pattern_buildup` (scripts/optimize-pattern-params.py:113-122).
The Python `pattern_size` argument is unused there and dropped here. -/
def check_pattern_buildup (pattern : List ℕ) (sample_cache : List (Finset ℕ))
    (min_hits max_hits : ℕ) : List ℕ :=
  (sample_cache.map (fun s => pattern.countP (fun n => decide (n ∈ s)))).filter
    (fun mcount => decide (min_hits ≤ mcount ∧ mcount ≤ max_hits))

/-- Forward scan computing the last index whose match count equals the
pattern size, `-1` when none: the value returned by the backward scan of
`check_last_full_hit`. -/
def lastFullHitFrom (pattern : List ℕ) (psize : ℕ) :
    List (Finset ℕ) → ℕ → Int → Int
  | [], _, acc => acc
  | s :: rest, i, acc =>
    let mcount := pattern.countP (fun n => decide (n ∈ s))
    lastFullHitFrom pattern psize rest (i + 1)
      (if mcount = psize then (i : Int) else acc)

/-- Embeds `check_last_full_hit` (scripts/optimize-pattern-params.py:124-130). -/
def check_last_full_hit (pattern : List ℕ) (tracking_cache : List (Finset ℕ))
    (psize : ℕ) : Int :=
  lastFullHitFrom pattern psize tracking_cache 0 (-1)

/-- Python's `range(start, stop, step)` for naturals with positive step. -/
def pyRange (start stop step : ℕ) : List ℕ :=
  (List.range ((stop - start + step - 1) / step)).map (fun i => start + i * step)

/-- Loop state of `run_backtest` in scripts/backtest-momentum.py:264-327. -/
structure BTState where
  gen : GenState
  total_predictions : ℕ
  total_completions : ℕ
  total_maintaining : ℕ
  rounds_to_hit : List ℕ
  profits : List ℚ
  pattern_changes : ℕ
  last_pattern : List ℕ

/-- The result record of `run_backtest` (scripts/backtest-momentum.py:334-348);
the maintaining fields are only meaningful when a payout table was given. -/
structure BacktestResult where
  total_predictions : ℕ
  total_completions : ℕ
  success_rate : ℚ
  avg_rounds_to_hit : ℚ
  pattern_changes : ℕ
  total_maintaining : ℕ
  maintaining_rate : ℚ
  avg_profit : ℚ

/-- One iteration of the evaluation loop of `run_backtest`
(scripts/backtest-momentum.py:292-321). -/
def btStep (cfg : Config) (shuffled : List ℕ) (bet_multis : Option PayoutTable)
    (difficulty : String) (history : List RoundData)
    (s : BTState) (current_idx : ℕ) : BTState :=
  let history_slice := history.take current_idx
  let pr := get_pattern cfg shuffled s.gen history_slice current_idx
  let pat := pr.1
  let s1 : BTState := { s with gen := pr.2 }
  let s2 : BTState :=
    if pat ≠ s1.last_pattern then
      { s1 with pattern_changes := s1.pattern_changes + 1, last_pattern := pat }
    else s1
  let future_history := history.drop current_idx
  let res := evaluate_pattern_performance future_history pat 30 bet_multis
    difficulty
  let s3 : BTState := { s2 with total_predictions := s2.total_predictions + 1 }
  let s4 : BTState :=
    if res.completed then
      { s3 with total_completions := s3.total_completions + 1,
                rounds_to_hit := s3.rounds_to_hit ++ [res.rounds_to_hit] }
    else s3
  match bet_multis with
  | some _ =>
    { s4 with profits := s4.profits ++ [res.profit],
              total_maintaining :=
                s4.total_maintaining + (if 0 ≤ res.profit then 1 else 0) }
  | none => s4

/-- Embeds `run_backtest` of scripts/backtest-momentum.py:264-348 (lookahead
fixed to 30, start index `baseline_window + 100`, stride
`refresh_frequency`). -/
def run_backtest (cfg : Config) (shuffled : List ℕ) (history : List RoundData)
    (bet_multis : Option PayoutTable) (difficulty : String) : BacktestResult :=
  let lookahead := 30
  let start_idx := cfg.baseline_window + 100
  let s := (pyRange start_idx (history.length - lookahead)
      cfg.refresh_frequency).foldl
    (btStep cfg shuffled bet_multis difficulty history)
    ⟨GenState.init, 0, 0, 0, [], [], 0, []⟩
  { total_predictions := s.total_predictions
    total_completions := s.total_completions
    success_rate :=
      if 0 < s.total_predictions then
        (s.total_completions : ℚ) / (s.total_predictions : ℚ) * 100
      else 0
    avg_rounds_to_hit :=
      if s.rounds_to_hit.isEmpty then 0
      else (s.rounds_to_hit.map (fun n => (n : ℚ))).sum /
        (s.rounds_to_hit.length : ℚ)
    pattern_changes := s.pattern_changes
    total_maintaining := s.total_maintaining
    maintaining_rate :=
      if 0 < s.total_predictions then
        (s.total_maintaining : ℚ) / (s.total_predictions : ℚ) * 100
      else 0
    avg_profit :=
      if s.profits.isEmpty then 0
      else s.profits.sum / (s.profits.length : ℚ) }

/-- Parameter bundle of the optimizer's `run_backtest`
(scripts/optimize-pattern-params.py:199-213). -/
structure OptParams where
  sample_size : ℕ
  min_hits : ℕ
  max_hits : ℕ
  not_hit_in : ℕ

/-- Loop state of the optimizer's `run_backtest`
(scripts/optimize-pattern-params.py:218-224). -/
structure OptState where
  total_predictions : ℕ
  total_successes : ℕ
  total_maintaining : ℕ
  total_rounds_to_hit : List ℚ
  total_profit : List ℚ
  evaluation_points : ℕ

/-- Result record of the optimizer's `run_backtest`
(scripts/optimize-pattern-params.py:302-313). -/
structure OptResult where
  total_predictions : ℕ
  total_successes : ℕ
  total_maintaining : ℕ
  evaluation_points : ℕ
  success_rate : ℚ
  maintaining_rate : ℚ
  avg_rounds_to_hit : ℚ
  avg_predictions_per_point : ℚ
  avg_profit : ℚ

/-- The pattern filter of the optimizer's loop body
(scripts/optimize-pattern-params.py:253-279): buildups must exist, the
sample hit rate must reach 10%, and a pattern that fully hit within the
last `not_hit_in` tracked rounds is rejected. -/
def optKeep (params : OptParams) (psize : ℕ) (sample_cache tracking_cache :
    List (Finset ℕ)) (pattern : List ℕ) : Bool :=
  let buildups := check_pattern_buildup pattern sample_cache params.min_hits
    params.max_hits
  let hit_rate : ℚ := ((buildups.length : ℚ) / (sample_cache.length : ℚ)) * 100
  let last_full_hit_idx := check_last_full_hit pattern tracking_cache psize
  decide (¬buildups.isEmpty ∧ ¬(hit_rate < 10) ∧
    ¬(0 < params.not_hit_in ∧ last_full_hit_idx ≠ -1 ∧
      ((tracking_cache.length : Int) - 1 - last_full_hit_idx <
        (params.not_hit_in : Int))))

/-- One iteration of the optimizer's evaluation loop
(scripts/optimize-pattern-params.py:233-293). -/
def optStep (params : OptParams) (psize : ℕ) (bet_multis : Option PayoutTable)
    (difficulty : String) (use_recency : Bool) (decay : ℚ)
    (history : List RoundData) (s : OptState) (current_idx : ℕ) : OptState :=
  let a := current_idx - 500
  let discovery_history := (history.drop a).take (current_idx - a)
  let all_patterns := find_common_patterns discovery_history psize 100 500
    use_recency decay
  if all_patterns.isEmpty then s
  else
    let b := current_idx - params.sample_size
    let sample := (history.drop b).take (current_idx - b)
    let c := current_idx - 1000
    let tracking := (history.drop c).take (current_idx - c)
    let sample_cache := sample.map (fun r => (get_drawn_numbers r).toFinset)
    let tracking_cache := tracking.map (fun r => (get_drawn_numbers r).toFinset)
    let filtered := all_patterns.filter
      (fun po => optKeep params psize sample_cache tracking_cache po.1)
    if filtered.isEmpty then s
    else
      let ev := evaluate_predictions history current_idx
        (filtered.map (fun po => po.1)) 30 psize bet_multis difficulty
      { total_predictions := s.total_predictions + ev.1
        total_successes := s.total_successes + ev.2.1
        total_maintaining := s.total_maintaining + ev.2.2.2.1
        total_rounds_to_hit :=
          if 0 < ev.2.2.1 then s.total_rounds_to_hit ++ [ev.2.2.1]
          else s.total_rounds_to_hit
        total_profit :=
          if ev.2.2.2.2 ≠ 0 then s.total_profit ++ [ev.2.2.2.2]
          else s.total_profit
        evaluation_points := s.evaluation_points + 1 }

/-- Embeds the optimizer's `run_backtest`
(scripts/optimize-pattern-params.py:199-313): discovery window 500,
lookahead 30, stride 50, start `max(500, sample_size) + 200`. -/
def opt_run_backtest (history : List RoundData) (params : OptParams)
    (psize : ℕ) (bet_multis : Option PayoutTable) (difficulty : String)
    (use_recency : Bool) (decay : ℚ) : OptResult :=
  let lookahead := 30
  let start_idx := max 500 params.sample_size + 200
  let s := (pyRange start_idx (history.length - lookahead) 50).foldl
    (optStep params psize bet_multis difficulty use_recency decay history)
    ⟨0, 0, 0, [], [], 0⟩
  { total_predictions := s.total_predictions
    total_successes := s.total_successes
    total_maintaining := s.total_maintaining
    evaluation_points := s.evaluation_points
    success_rate :=
      if 0 < s.total_predictions then
        (s.total_successes : ℚ) / (s.total_predictions : ℚ) * 100
      else 0
    maintaining_rate :=
      if 0 < s.total_predictions then
        (s.total_maintaining : ℚ) / (s.total_predictions : ℚ) * 100
      else 0
    avg_rounds_to_hit :=
      if s.total_rounds_to_hit.isEmpty then 0
      else s.total_rounds_to_hit.sum / (s.total_rounds_to_hit.length : ℚ)
    avg_predictions_per_point :=
      if 0 < s.evaluation_points then
        (s.total_predictions : ℚ) / (s.evaluation_points : ℚ)
      else 0
    avg_profit :=
      if s.total_profit.isEmpty then 0
      else s.total_profit.sum / (s.total_profit.length : ℚ) }

/-! ## Concrete instances used in witnesses and counterexamples -/

/-- The payout table `{"high": {"5": {"5": 40, "4": 3}}}` of the spec's
concrete scenario (absent keys give multiplier 0, as in Python's
`.get(..., 0)` chain). -/
def pm0 : PayoutTable := fun d k h =>
  if d = "high" ∧ k = 5 ∧ h = 5 then 40
  else if d = "high" ∧ k = 5 ∧ h = 4 then 3 else 0

/-- A payout table paying 2 on a 1-of-5 hit and 10 on a 4-of-5 hit. -/
def pm1 : PayoutTable := fun d k h =>
  if d = "high" ∧ k = 5 ∧ h = 1 then 2
  else if d = "high" ∧ k = 5 ∧ h = 4 then 10 else 0

/-- A history of nine rounds drawing `[6]` followed by one round drawing
`[1,2,3,4,5]`: first full completion of `[1,2,3,4,5]` at distance 10. -/
def histC2 : List RoundData := List.replicate 9 (R [6]) ++ [R [1, 2, 3, 4, 5]]

/-- Pattern size 1, windows 1/2, threshold 3/2, refresh frequency 2. -/
def cfgC4 : Config := ⟨1, 1, 2, 3/2, 2, 15⟩

/-- Pattern size 1, windows 1/1, threshold 3/2, refresh frequency 3. -/
def cfgC4w : Config := ⟨1, 1, 1, 3/2, 3, 15⟩

/-- Pattern size 2, windows 1/5, threshold 3/2, refresh frequency 5. -/
def cfgC5 : Config := ⟨2, 1, 5, 3/2, 5, 15⟩

/-- Pattern size 2, windows 1/1, threshold 3/2, refresh frequency 5. -/
def cfgC5w : Config := ⟨2, 1, 1, 3/2, 5, 15⟩

/-- Pattern size 10, windows 1/1, threshold 3/2, refresh frequency 5. -/
def cfgC9 : Config := ⟨10, 1, 1, 3/2, 5, 15⟩

/-- 132 rounds each drawing only the number 1: long enough for one
evaluation point of `run_backtest`, on which no size-10 pattern can ever
complete. -/
def histC9 : List RoundData := List.replicate 132 (R [1])

/-! ## Theorems -/

/-- `completionIndex` finds the 1-based index of the first round containing
the pattern: helper characterisation used by several claims. -/
theorem completionIndex_eq_some (pset : Finset ℕ) :
    ∀ (l : List RoundData) (i : ℕ) (hi : i < l.length),
    pset ⊆ (get_drawn_numbers (l.get ⟨i, hi⟩)).toFinset →
    (∀ j (hj : j < i),
      ¬pset ⊆ (get_drawn_numbers (l.get ⟨j, Nat.lt_trans hj hi⟩)).toFinset) →
    completionIndex pset l = some (i + 1) := by
  intro l
  induction l with
  | nil => intro i hi; exact absurd hi (Nat.not_lt_zero i)
  | cons r rest ih =>
    intro i hi hsub hmin
    match i with
    | 0 =>
      simp [completionIndex,
        show pset ⊆ (get_drawn_numbers r).toFinset from hsub]
    | j + 1 =>
      have hhead : ¬pset ⊆ (get_drawn_numbers r).toFinset :=
        hmin 0 (Nat.succ_pos j)
      have hj : j < rest.length := Nat.lt_of_succ_lt_succ hi
      have := ih j hj hsub (fun k hk => hmin (k + 1) (Nat.succ_lt_succ hk))
      simp [completionIndex, hhead, this]

/-- If no round of the list contains the pattern, `completionIndex` finds
nothing. -/
theorem completionIndex_eq_none (pset : Finset ℕ) :
    ∀ l : List RoundData,
    (∀ r ∈ l, ¬pset ⊆ (get_drawn_numbers r).toFinset) →
    completionIndex pset l = none := by
  intro l
  induction l with
  | nil => intro _; rfl
  | cons r rest ih =>
    intro h
    simp [completionIndex, h r (List.mem_cons_self r rest),
      ih (fun x hx => h x (List.mem_cons_of_mem r hx))]

unseal Rat.mul Rat.inv Rat.add Rat.sub in
/-- C2: with a payout table supplied, the evaluator reports completion at
the 1-based distance of the first forward round whose drawn set contains
the pattern, with profit the full-hit multiplier minus that distance; in
particular with table `{"high": {"5": {"5": 40, "4": 3}}}` and first full
completion of a size-5 pattern at distance 10 the profit is 30. -/
theorem completion_profit_spec :
    (∀ (history : List RoundData) (pattern : List ℕ) (lookahead : ℕ)
      (pm : PayoutTable) (difficulty : String) (i : ℕ)
      (hL : lookahead ≤ history.length) (hiL : i < lookahead)
      (hsub : pattern.toFinset ⊆
        (get_drawn_numbers (history.get
          ⟨i, Nat.lt_of_lt_of_le hiL hL⟩)).toFinset),
      (∀ j (hj : j < i), ¬pattern.toFinset ⊆
        (get_drawn_numbers (history.get
          ⟨j, Nat.lt_trans hj (Nat.lt_of_lt_of_le hiL hL)⟩)).toFinset) →
      evaluate_pattern_performance history pattern lookahead (some pm)
        difficulty =
        ⟨true, i + 1,
          pm difficulty pattern.length pattern.length - ((i + 1 : ℕ) : ℚ)⟩) ∧
    evaluate_pattern_performance histC2 [1, 2, 3, 4, 5] 10 (some pm0)
      "high" = ⟨true, 10, 30⟩ := by
  constructor
  · intro history pattern lookahead pm difficulty i hL hiL hsub hmin
    have hlen : ¬history.length < lookahead := Nat.not_lt.mpr hL
    have hitake : i < (history.take lookahead).length := by
      simpa [List.length_take, Nat.lt_min] using
        And.intro hiL (Nat.lt_of_lt_of_le hiL hL)
    have hget : ∀ (j : ℕ) (hj : j < (history.take lookahead).length),
        (history.take lookahead).get ⟨j, hj⟩ =
          history.get ⟨j, by
            have := hj; simp [List.length_take, Nat.lt_min] at this
            exact this.2⟩ := by
      intro j hj
      simp [List.get_eq_getElem, List.getElem_take]
    have hfound : completionIndex pattern.toFinset (history.take lookahead) =
        some (i + 1) := by
      refine completionIndex_eq_some pattern.toFinset (history.take lookahead)
        i hitake ?_ ?_
      · rw [hget i hitake]; exact hsub
      · intro j hj
        rw [hget j (Nat.lt_trans hj hitake)]
        exact hmin j hj
    simp [evaluate_pattern_performance, hlen, hfound]
  · decide

/-- Witness for C2's general part at a one-round history completing a
singleton pattern at distance 1. -/
theorem completion_profit_spec_witness :
    evaluate_pattern_performance [R [1, 2]] [1] 1 (some pm0) "high" =
      ⟨true, 0 + 1,
        pm0 "high" ([1] : List ℕ).length ([1] : List ℕ).length -
          ((0 + 1 : ℕ) : ℚ)⟩ :=
  completion_profit_spec.1 [R [1, 2]] [1] 1 pm0 "high" 0 (by decide)
    (by decide) (by decide) (fun j hj => absurd hj (Nat.not_lt_zero j))

/-- Pulling an element of the base through a fold of `max`. -/
theorem foldr_max_init (l : List ℚ) :
    ∀ (base v : ℚ), l.foldr max (max base v) = max v (l.foldr max base) := by
  induction l with
  | nil => intro base v; exact max_comm base v
  | cons x t ih =>
    intro base v
    simp only [List.foldr_cons, ih base v]
    exact max_left_comm x v (t.foldr max base)

/-- The whole-window scan of `evaluate_pattern_performance` computes the
fold of `max` over the qualifying partial-hit profits. -/
theorem bestSubProfit_eq_foldr (pm : PayoutTable) (difficulty : String)
    (psize : ℕ) (pset : Finset ℕ) :
    ∀ (l : List RoundData) (idx : ℕ) (base : ℚ),
    bestSubProfit pm difficulty psize pset l idx base =
      (subHitProfits pm difficulty psize pset l idx).foldr max base := by
  intro l
  induction l with
  | nil => intro idx base; rfl
  | cons r rest ih =>
    intro idx base
    by_cases h1 : 0 < (pset ∩ (get_drawn_numbers r).toFinset).card
    · by_cases h2 : 0 < pm difficulty psize
        (pset ∩ (get_drawn_numbers r).toFinset).card
      · simp only [bestSubProfit, subHitProfits, if_pos h1, if_pos h2,
          if_pos (And.intro h1 h2), ih, List.foldr_cons]
        exact foldr_max_init _ base _
      · simp only [bestSubProfit, subHitProfits, if_pos h1, if_neg h2, ih]
        rw [if_neg (fun hc => h2 hc.2)]
    · simp only [bestSubProfit, subHitProfits, if_neg h1, ih]
      rw [if_neg (fun hc => h1 hc.1)]

/-- The early-exit scan of `evaluate_predictions` computes the fold of `max`
over the qualifying profits truncated at the first non-negative one. -/
theorem earlyBestSub_eq_foldr (pm : PayoutTable) (difficulty : String)
    (psize : ℕ) (pset : Finset ℕ) :
    ∀ (l : List RoundData) (idx : ℕ) (base : ℚ),
    earlyBestSub pm difficulty psize pset l idx base =
      (subHitProfitsUpToNonneg pm difficulty psize pset l idx).foldr max
        base := by
  intro l
  induction l with
  | nil => intro idx base; rfl
  | cons r rest ih =>
    intro idx base
    by_cases h1 : 0 < (pset ∩ (get_drawn_numbers r).toFinset).card
    · by_cases h2 : 0 < pm difficulty psize
        (pset ∩ (get_drawn_numbers r).toFinset).card
      · by_cases h3 : 0 ≤ pm difficulty psize
          (pset ∩ (get_drawn_numbers r).toFinset).card - (idx : ℚ)
        · simp only [earlyBestSub, subHitProfitsUpToNonneg, if_pos h1,
            if_pos h2, if_pos (And.intro h1 h2), if_pos h3, List.foldr_cons,
            List.foldr_nil]
          exact max_comm base _
        · simp only [earlyBestSub, subHitProfitsUpToNonneg, if_pos h1,
            if_pos h2, if_pos (And.intro h1 h2), if_neg h3, ih,
            List.foldr_cons]
          exact foldr_max_init _ base _
      · simp only [earlyBestSub, subHitProfitsUpToNonneg, if_pos h1,
          if_neg h2, ih]
        rw [if_neg (fun hc => h2 hc.2)]
    · simp only [earlyBestSub, subHitProfitsUpToNonneg, if_neg h1, ih]
      rw [if_neg (fun hc => h1 hc.1)]

unseal Rat.mul Rat.inv Rat.add Rat.sub in
/-- C3 counterexample: on the same inputs (pattern `[1,2,3,4,5]`, forward
rounds `[1]` then `[1,2,3,4]`, payout 2 for 1 hit and 10 for 4 hits) the
backtest evaluator reports the true maximum partial profit 8, while
`evaluate_predictions` stops its scan at the first non-negative profit and
reports 1 — so the optimizer's profit is not the claimed maximum. -/
theorem best_partial_profit_divergence :
    evaluate_pattern_performance [R [1], R [1, 2, 3, 4]] [1, 2, 3, 4, 5] 2
      (some pm1) "high" = ⟨false, 0, 8⟩ ∧
    (evaluate_predictions [R [1], R [1, 2, 3, 4]] 0 [[1, 2, 3, 4, 5]] 2 5
      (some pm1) "high").2.2.2.2 = 1 ∧
    ((8 : ℚ) ≠ 1) := by decide

/-- C3 amended: the backtest evaluator's profit on a non-completing pattern
is the maximum of `multiplier − rounds_elapsed` over all positive-payout
partial hits in the window (the fold of `max` starting from the
`−window_length` sentinel); the optimizer's evaluator instead returns that
maximum over the scan truncated at the first non-negative profit. -/
theorem best_partial_profit_spec :
    (∀ (history : List RoundData) (pattern : List ℕ) (lookahead : ℕ)
      (pm : PayoutTable) (difficulty : String),
      lookahead ≤ history.length →
      (∀ r ∈ history.take lookahead,
        ¬pattern.toFinset ⊆ (get_drawn_numbers r).toFinset) →
      evaluate_pattern_performance history pattern lookahead (some pm)
        difficulty =
        ⟨false, 0,
          (subHitProfits pm difficulty pattern.length pattern.toFinset
            (history.take lookahead) 1).foldr max (-(lookahead : ℚ))⟩) ∧
    (∀ (history : List RoundData) (current_idx : ℕ) (p : List ℕ)
      (lookahead psize : ℕ) (pm : PayoutTable) (difficulty : String),
      current_idx + lookahead ≤ history.length →
      (∀ r ∈ (history.drop current_idx).take lookahead,
        ¬p.toFinset ⊆ (get_drawn_numbers r).toFinset) →
      evaluate_predictions history current_idx [p] lookahead psize (some pm)
        difficulty =
        (1, 0, 0,
          (if 0 ≤ (subHitProfitsUpToNonneg pm difficulty psize p.toFinset
              ((history.drop current_idx).take lookahead) 1).foldr max
              (-(lookahead : ℚ)) then 1 else 0),
          (subHitProfitsUpToNonneg pm difficulty psize p.toFinset
            ((history.drop current_idx).take lookahead) 1).foldr max
            (-(lookahead : ℚ)))) := by
  constructor
  · intro history pattern lookahead pm difficulty hL hnone
    have hlen : ¬history.length < lookahead := Nat.not_lt.mpr hL
    have hci := completionIndex_eq_none pattern.toFinset
      (history.take lookahead) hnone
    simp [evaluate_pattern_performance, hlen, hci,
      bestSubProfit_eq_foldr]
  · intro history current_idx p lookahead psize pm difficulty hL hnone
    have hlen : ¬history.length < current_idx + lookahead := Nat.not_lt.mpr hL
    have hci := completionIndex_eq_none p.toFinset
      ((history.drop current_idx).take lookahead) hnone
    simp only [evaluate_predictions, if_neg hlen, List.foldl_cons,
      List.foldl_nil, predStep, hci]
    simp [earlyBestSub_eq_foldr]

/-- Witness for C3's amended statement on a concrete non-completing
pattern. -/
theorem best_partial_profit_spec_witness :
    evaluate_pattern_performance [R [1], R [1, 2, 3, 4]] [1, 2, 3, 4, 5] 2
      (some pm1) "high" =
      ⟨false, 0,
        (subHitProfits pm1 "high" ([1, 2, 3, 4, 5] : List ℕ).length
          (List.toFinset [1, 2, 3, 4, 5])
          (([R [1], R [1, 2, 3, 4]] : List RoundData).take 2) 1).foldr max
          (-((2 : ℕ) : ℚ))⟩ :=
  best_partial_profit_spec.1 [R [1], R [1, 2, 3, 4]] [1, 2, 3, 4, 5] 2 pm1
    "high" (by decide) (by decide)


/-- Projecting the keys out of a key-preserving `filterMap` yields a
`filter`. -/
theorem map_fst_filterMap_keyed {β : Type} (g : ℕ → Option (ℕ × β))
    (hg : ∀ n p, g n = some p → p.1 = n) :
    ∀ l : List ℕ,
    (l.filterMap g).map Prod.fst = l.filter (fun n => (g n).isSome) := by
  intro l
  induction l with
  | nil => rfl
  | cons a t ih =>
    cases h : g a with
    | none => simp [List.filterMap_cons, h, ih, List.filter_cons]
    | some p =>
      have := hg a p h
      simp [List.filterMap_cons, h, ih, List.filter_cons, this]

/-- Shape of a "sort key-value pairs, truncate, project keys" computation:
distinct keys, keys drawn from the accepted part of the source list, and
length `min count (number of accepted keys)`. -/
theorem take_sort_keyed_props {β : Type} (r : ℕ × β → ℕ × β → Prop)
    [DecidableRel r] (g : ℕ → Option (ℕ × β))
    (hg : ∀ n p, g n = some p → p.1 = n) (l : List ℕ) (hl : l.Nodup)
    (count : ℕ) (res : List ℕ)
    (hres : res = (((l.filterMap g).insertionSort r).take count).map
      Prod.fst) :
    res.Nodup ∧ (∀ x ∈ res, x ∈ l ∧ (g x).isSome) ∧
      res.length = min count (l.filter (fun n => (g n).isSome)).length := by
  have hperm : List.Perm (((l.filterMap g).insertionSort r).map Prod.fst)
      (l.filter (fun n => (g n).isSome)) := by
    refine ((List.perm_insertionSort r _).map Prod.fst).trans ?_
    rw [map_fst_filterMap_keyed g hg]
  have heq : res = ((((l.filterMap g).insertionSort r).map
      Prod.fst).take count) := by
    rw [hres]; simp
  refine ⟨?_, ?_, ?_⟩
  · rw [heq]
    exact (hperm.nodup_iff.mpr (hl.filter _)).take
  · intro x hx
    rw [heq] at hx
    have hx2 := hperm.mem_iff.mp (List.mem_of_mem_take hx)
    have := List.mem_filter.mp hx2
    exact ⟨this.1, by simpa using this.2⟩
  · rw [heq, List.length_take, hperm.length_eq]

/-- A `Nodup` list filtered on non-membership in `ex` loses at most
`ex.length` elements. -/
theorem filter_notMem_length_ge (l ex : List ℕ) (hl : l.Nodup) :
    l.length - ex.length ≤
      (l.filter (fun n => decide (n ∉ ex))).length := by
  have h := List.length_eq_length_filter_add
    (l := l) (fun n => decide (n ∉ ex))
  have h2 : (l.filter (fun n => !decide (n ∉ ex))).length ≤ ex.length := by
    have hnd : (l.filter (fun n => !decide (n ∉ ex))).Nodup := hl.filter _
    have hsub : ∀ x ∈ l.filter (fun n => !decide (n ∉ ex)), x ∈ ex := by
      intro x hx
      have := List.of_mem_filter hx
      simpa using this
    calc (l.filter (fun n => !decide (n ∉ ex))).length
        = (l.filter (fun n => !decide (n ∉ ex))).toFinset.card :=
          (List.toFinset_card_of_nodup hnd).symm
      _ ≤ ex.toFinset.card := by
          refine Finset.card_le_card ?_
          intro x hx
          rw [List.mem_toFinset] at hx ⊢
          exact hsub x hx
      _ ≤ ex.length := List.toFinset_card_le ex
  omega

/-- A `Nodup` list included in another list is no longer than it. -/
theorem nodup_length_le_of_mem (l l' : List ℕ) (hl : l.Nodup)
    (hmem : ∀ x ∈ l, x ∈ l') : l.length ≤ l'.length :=
  calc l.length = l.toFinset.card := (List.toFinset_card_of_nodup hl).symm
    _ ≤ l'.toFinset.card := by
        refine Finset.card_le_card ?_
        intro x hx
        rw [List.mem_toFinset] at hx ⊢
        exact hmem x hx
    _ ≤ l'.length := List.toFinset_card_le l'

/-- `get_most_frequent_numbers` returns distinct numbers of 1..40 outside
the excluded list, `min count (40 − excluded present)` of them. -/
theorem gmfn_props (cfg : Config) (history : List RoundData) (count : ℕ)
    (exclude : List ℕ) :
    (get_most_frequent_numbers cfg history count exclude).Nodup ∧
    (∀ x ∈ get_most_frequent_numbers cfg history count exclude,
      x ∈ List.range' 1 40 ∧ x ∉ exclude) ∧
    (get_most_frequent_numbers cfg history count exclude).length =
      min count ((List.range' 1 40).filter
        (fun n => decide (n ∉ exclude))).length := by
  have hg : ∀ (n : ℕ) (p : ℕ × ℕ),
      (if n ∈ exclude then none else some (n,
        (((lastSlice history cfg.baseline_window)).map
          (fun r => (get_drawn_numbers r).count n)).sum)) = some p →
      p.1 = n := by
    intro n p hp
    by_cases h : n ∈ exclude
    · simp [h] at hp
    · simp [h] at hp
      rw [← hp]
  have h := take_sort_keyed_props (fun a b : ℕ × ℕ => b.2 ≤ a.2)
    (fun n => if n ∈ exclude then none else some (n,
      (((lastSlice history cfg.baseline_window)).map
        (fun r => (get_drawn_numbers r).count n)).sum))
    hg (List.range' 1 40) (List.nodup_range' 1 40) count
    (get_most_frequent_numbers cfg history count exclude) rfl
  have hpred : ((List.range' 1 40).filter (fun n : ℕ =>
      (if n ∈ exclude then none else some (n,
        (((lastSlice history cfg.baseline_window)).map
          (fun r => (get_drawn_numbers r).count n)).sum)).isSome)) =
      ((List.range' 1 40).filter (fun n => decide (n ∉ exclude))) := by
    refine List.filter_congr ?_
    intro n _
    by_cases hn : n ∈ exclude <;> simp [hn]
  rw [hpred] at h
  refine ⟨h.1, ?_, h.2.2⟩
  intro x hx
  have := h.2.1 x hx
  refine ⟨this.1, ?_⟩
  by_cases hm : x ∈ exclude
  · simp [hm] at this
  · exact hm

/-- The freshly generated momentum pattern has exactly `pattern_size`
distinct entries and is sorted strictly ascending (for any pattern size at
most the 40 available numbers). -/
theorem generate_pattern_spec (cfg : Config) (history : List RoundData)
    (h40 : cfg.pattern_size ≤ 40) :
    (generate_pattern cfg history).length = cfg.pattern_size ∧
    (generate_pattern cfg history).Sorted (· < ·) := by
  have hg : ∀ (n : ℕ) (p : ℕ × ℚ),
      (match calculate_momentum cfg n history with
        | some m =>
          if cfg.momentum_threshold ≤ m then some (n, m) else none
        | none => none) = some p → p.1 = n := by
    intro n p hp
    cases hmom : calculate_momentum cfg n history with
    | none => rw [hmom] at hp; simp at hp
    | some m =>
      rw [hmom] at hp
      by_cases h : cfg.momentum_threshold ≤ m
      · simp [h] at hp
        rw [← hp]
      · simp [h] at hp
  have hpat : ((identify_hot_numbers cfg history).take cfg.top_n_pool
      |>.take cfg.pattern_size).map Prod.fst =
      ((((List.range' 1 40).filterMap (fun number =>
        match calculate_momentum cfg number history with
        | some m =>
          if cfg.momentum_threshold ≤ m then some (number, m) else none
        | none => none)).insertionSort
        (fun a b : ℕ × ℚ => b.2 ≤ a.2)).take
        (min cfg.pattern_size cfg.top_n_pool)).map Prod.fst := by
    unfold identify_hot_numbers
    rw [List.take_take]
  obtain ⟨hnodup, hmem0, hlen0⟩ := take_sort_keyed_props
    (fun a b : ℕ × ℚ => b.2 ≤ a.2) _ hg (List.range' 1 40)
    (List.nodup_range' 1 40) (min cfg.pattern_size cfg.top_n_pool)
    (((identify_hot_numbers cfg history).take cfg.top_n_pool
      |>.take cfg.pattern_size).map Prod.fst) hpat
  have hmem : ∀ x ∈ ((identify_hot_numbers cfg history).take cfg.top_n_pool
      |>.take cfg.pattern_size).map Prod.fst, x ∈ List.range' 1 40 :=
    fun x hx => (hmem0 x hx).1
  have hlen : (((identify_hot_numbers cfg history).take cfg.top_n_pool
      |>.take cfg.pattern_size).map Prod.fst).length ≤ cfg.pattern_size := by
    rw [hlen0]; omega
  set pat := ((identify_hot_numbers cfg history).take cfg.top_n_pool
      |>.take cfg.pattern_size).map Prod.fst
  have hgen : generate_pattern cfg history =
      (if pat.length < cfg.pattern_size then
        pat ++ get_most_frequent_numbers cfg history
          (cfg.pattern_size - pat.length) pat
      else pat).insertionSort (· ≤ ·) := rfl
  have hshape : (if pat.length < cfg.pattern_size then
      pat ++ get_most_frequent_numbers cfg history
        (cfg.pattern_size - pat.length) pat
    else pat).length = cfg.pattern_size ∧
      (if pat.length < cfg.pattern_size then
      pat ++ get_most_frequent_numbers cfg history
        (cfg.pattern_size - pat.length) pat
    else pat).Nodup := by
    by_cases hsplit : pat.length < cfg.pattern_size
    · simp only [if_pos hsplit]
      obtain ⟨gnd, gmem, glen⟩ := gmfn_props cfg history
        (cfg.pattern_size - pat.length) pat
      have havail : cfg.pattern_size - pat.length ≤
          ((List.range' 1 40).filter
            (fun n => decide (n ∉ pat))).length := by
        have h1 := filter_notMem_length_ge (List.range' 1 40) pat
          (List.nodup_range' 1 40)
        have h2 : pat.length ≤ (List.range' 1 40).length :=
          nodup_length_le_of_mem pat (List.range' 1 40) hnodup hmem
        simp only [List.length_range'] at h1 h2 ⊢
        omega
      have glen' : (get_most_frequent_numbers cfg history
          (cfg.pattern_size - pat.length) pat).length =
          cfg.pattern_size - pat.length := by
        rw [glen]; omega
      constructor
      · rw [List.length_append, glen']; omega
      · refine hnodup.append gnd ?_
        intro a ha hb
        exact (gmem a hb).2 ha
    · simp only [if_neg hsplit]
      exact ⟨Nat.le_antisymm hlen (Nat.not_lt.mp hsplit), hnodup⟩
  rw [hgen]
  have hperm := List.perm_insertionSort (α := ℕ) (· ≤ ·)
    (if pat.length < cfg.pattern_size then
      pat ++ get_most_frequent_numbers cfg history
        (cfg.pattern_size - pat.length) pat
    else pat)
  refine ⟨by rw [hperm.length_eq]; exact hshape.1, ?_⟩
  refine List.Sorted.lt_of_le ?_ (hperm.nodup_iff.mpr hshape.2)
  exact List.sorted_insertionSort (· ≤ ·) _

/-- From a state with a nonempty cached pattern, calls at rounds not
divisible by the refresh frequency return the cache and never change the
state. -/
theorem runCalls_const (cfg : Config) (shuffled : List ℕ) :
    ∀ (hs : List (List RoundData)) (start : ℕ) (s : GenState),
    s.current_pattern ≠ [] →
    (∀ i, i < hs.length → (start + i) % cfg.refresh_frequency ≠ 0) →
    (runCallsFrom cfg shuffled s hs start).1 =
      hs.map (fun _ => s.current_pattern) := by
  intro hs
  induction hs with
  | nil => intro start s _ _; rfl
  | cons h t ih =>
    intro start s hne hnd
    have h0 : ¬(s.current_pattern.length = 0 ∨
        start % cfg.refresh_frequency = 0) := by
      push_neg
      refine ⟨fun hl => hne (List.length_eq_zero.mp hl), ?_⟩
      have := hnd 0 (Nat.succ_pos _)
      simpa using this
    have hcall : get_pattern cfg shuffled s h start =
        (s.current_pattern, s) := by
      simp only [get_pattern]
      rw [if_neg h0]
    simp only [runCallsFrom, hcall, List.map_cons]
    rw [ih (start + 1) s hne ?_]
    intro i hi
    have := hnd (i + 1) (Nat.succ_lt_succ hi)
    have harith : start + 1 + i = start + (i + 1) := by omega
    rw [harith]
    exact this

unseal Rat.mul Rat.inv Rat.add Rat.sub in
/-- C4 counterexample: with refresh frequency 2, pattern size 1, baseline
window 2, a first call at round 2 (history one round, below the baseline)
returns the fallback `[1]` without caching it, and the next call at round 3
(3 mod 2 ≠ 0) recomputes and returns `[2]`: the run over rounds 2,3 — only
the first divisible by the frequency — does not return identical
patterns. -/
theorem sticky_pattern_divergence :
    (runCallsFrom cfgC4 [] GenState.init [[R [1]], [R [1], R [2, 3]]] 2).1 =
      [[1], [2]] ∧
    (2 + 1) % cfgC4.refresh_frequency ≠ 0 ∧
    ¬([[1], [2]] : List (List ℕ)).Pairwise (· = ·) := by decide

/-- C4 amended: `get_pattern` returns the cached pattern with the state
unchanged exactly when the cache is nonempty and the round is not divisible
by the refresh frequency; and consecutive calls at rounds
`r, r+1, ..., r+k` (none divisible by the frequency except possibly the
first) return pairwise identical patterns provided every call's history
reaches the baseline window and `0 < pattern_size ≤ 40` (so that the
fallback path, which bypasses the cache, is never taken). -/
theorem sticky_pattern_spec :
    (∀ (cfg : Config) (shuffled : List ℕ) (s : GenState)
      (history : List RoundData) (round : ℕ),
      ¬(s.current_pattern.length = 0 ∨
        round % cfg.refresh_frequency = 0) →
      get_pattern cfg shuffled s history round = (s.current_pattern, s)) ∧
    (∀ (cfg : Config) (shuffled : List ℕ) (s : GenState)
      (hs : List (List RoundData)) (start : ℕ),
      0 < cfg.pattern_size → cfg.pattern_size ≤ 40 →
      (∀ h ∈ hs, cfg.baseline_window ≤ h.length) →
      (∀ i, 0 < i → i < hs.length →
        (start + i) % cfg.refresh_frequency ≠ 0) →
      ((runCallsFrom cfg shuffled s hs start).1).Pairwise (· = ·)) := by
  constructor
  · intro cfg shuffled s history round h0
    simp only [get_pattern]
    rw [if_neg h0]
  · intro cfg shuffled s hs start hps h40 hlen hmod
    match hs with
    | [] => exact List.Pairwise.nil
    | h :: t =>
      have hcache : (get_pattern cfg shuffled s h start).2.current_pattern =
          (get_pattern cfg shuffled s h start).1 ∧
          (get_pattern cfg shuffled s h start).1 ≠ [] := by
        by_cases href : s.current_pattern.length = 0 ∨
            start % cfg.refresh_frequency = 0
        · have hnotshort : ¬h.length < cfg.baseline_window :=
            Nat.not_lt.mpr (hlen h (List.mem_cons_self h t))
          have hcall : get_pattern cfg shuffled s h start =
              (generate_pattern cfg h,
                ⟨generate_pattern cfg h, start⟩) := by
            simp only [get_pattern]
            rw [if_pos href, if_neg hnotshort]
          rw [hcall]
          refine ⟨rfl, ?_⟩
          show generate_pattern cfg h ≠ []
          intro hnil
          have hl := (generate_pattern_spec cfg h h40).1
          rw [hnil] at hl
          simp at hl
          omega
        · have hcall : get_pattern cfg shuffled s h start =
              (s.current_pattern, s) := by
            simp only [get_pattern]
            rw [if_neg href]
          rw [hcall]
          refine ⟨rfl, ?_⟩
          show s.current_pattern ≠ []
          intro hnil
          exact href (Or.inl (by rw [hnil]; rfl))
      have hrest := runCalls_const cfg shuffled t (start + 1)
        (get_pattern cfg shuffled s h start).2
        (by rw [hcache.1]; exact hcache.2)
        (by
          intro i hi
          have := hmod (i + 1) (Nat.succ_pos i)
            (by simpa using Nat.succ_lt_succ hi)
          have harith : start + 1 + i = start + (i + 1) := by omega
          rw [harith]
          exact this)
      show ((get_pattern cfg shuffled s h start).1 ::
        (runCallsFrom cfg shuffled
          (get_pattern cfg shuffled s h start).2 t (start + 1)).1).Pairwise
          (· = ·)
      rw [hrest, hcache.1]
      refine List.Pairwise.cons ?_ ?_
      · intro b hb
        rcases List.mem_map.mp hb with ⟨x, _, hx⟩
        exact hx
      · exact List.pairwise_map.mpr
          (List.pairwise_of_forall (fun _ _ => rfl))

/-- Witness for C4's amended stickiness: two calls at rounds 3 and 4 with
frequency 3 and sufficient history return identical patterns. -/
theorem sticky_pattern_spec_witness :
    ((runCallsFrom cfgC4w [] GenState.init [[R [1]], [R [1]]] 3).1).Pairwise
      (· = ·) :=
  sticky_pattern_spec.2 cfgC4w [] GenState.init [[R [1]], [R [1]]] 3
    (by decide) (by decide) (by decide)
    (fun i h1 h2 => by
      match i with
      | 1 => decide
      | n + 2 => simp at h2)

/-- C5 counterexample: with pattern size 2 and baseline window 5, a refresh
call on the three-round history `[2],[2],[1]` (shorter than the baseline)
returns the fallback pattern `[2, 1]`, ordered by descending frequency and
not sorted ascending. -/
theorem pattern_shape_divergence :
    (get_pattern cfgC5 [] GenState.init [R [2], R [2], R [1]] 7).1 =
      [2, 1] ∧
    ¬([2, 1] : List ℕ).Sorted (· < ·) ∧
    GenState.init.current_pattern.length = 0 := by
  refine ⟨by decide, by decide, rfl⟩

/-- C5 amended: the pattern returned by `get_pattern` always consists of
exactly `pattern_size` distinct numbers (given `pattern_size ≤ 40`, a valid
random source and a well-formed cache), and it is sorted ascending on every
path except the insufficient-history fallback on a nonempty history, which
returns the most frequent numbers in descending-frequency order instead. -/
theorem pattern_shape_spec (cfg : Config) (shuffled : List ℕ) (s : GenState)
    (history : List RoundData) (round : ℕ)
    (h40 : cfg.pattern_size ≤ 40)
    (hsh : List.Perm shuffled (List.range' 1 40))
    (hs : s.current_pattern = [] ∨
      (s.current_pattern.Sorted (· < ·) ∧
        s.current_pattern.length = cfg.pattern_size)) :
    ((get_pattern cfg shuffled s history round).1).Nodup ∧
    ((get_pattern cfg shuffled s history round).1).length =
      cfg.pattern_size ∧
    (((s.current_pattern.length = 0 ∨
        round % cfg.refresh_frequency = 0) →
        cfg.baseline_window ≤ history.length ∨ history.length = 0) →
      ((get_pattern cfg shuffled s history round).1).Sorted (· < ·)) := by
  by_cases href : s.current_pattern.length = 0 ∨
      round % cfg.refresh_frequency = 0
  · by_cases hshort : history.length < cfg.baseline_window
    · have hcall : get_pattern cfg shuffled s history round =
          (get_fallback_pattern cfg shuffled history, s) := by
        simp only [get_pattern]
        rw [if_pos href, if_pos hshort]
      rw [hcall]
      by_cases hemp : history.length = 0
      · have hfb : get_fallback_pattern cfg shuffled history =
            (shuffled.take cfg.pattern_size).insertionSort (· ≤ ·) := by
          unfold get_fallback_pattern get_random_pattern
          rw [if_pos hemp]
        have hperm := List.perm_insertionSort (α := ℕ) (· ≤ ·)
          (shuffled.take cfg.pattern_size)
        have htk : (shuffled.take cfg.pattern_size).Nodup :=
          (hsh.nodup_iff.mpr (List.nodup_range' 1 40)).take
      --
        have hnd : ((shuffled.take cfg.pattern_size).insertionSort
            (· ≤ ·)).Nodup := hperm.nodup_iff.mpr htk
        have hsorted : ((shuffled.take cfg.pattern_size).insertionSort
            (· ≤ ·)).Sorted (· < ·) :=
          List.Sorted.lt_of_le (List.sorted_insertionSort (· ≤ ·) _) hnd
        have hln : ((shuffled.take cfg.pattern_size).insertionSort
            (· ≤ ·)).length = cfg.pattern_size := by
          rw [hperm.length_eq, List.length_take, hsh.length_eq]
          simp only [List.length_range']
          omega
        rw [hfb]
        exact ⟨hnd, hln, fun _ => hsorted⟩
      · have hfb : get_fallback_pattern cfg shuffled history =
            get_most_frequent_numbers cfg history cfg.pattern_size [] := by
          unfold get_fallback_pattern
          rw [if_neg hemp]
        obtain ⟨gnd, _, glen⟩ := gmfn_props cfg history cfg.pattern_size []
        have hlen : (get_most_frequent_numbers cfg history
            cfg.pattern_size []).length = cfg.pattern_size := by
          rw [glen]
          have h40len : ((List.range' 1 40).filter
              (fun n => decide (n ∉ ([] : List ℕ)))).length = 40 := by
            decide
          rw [h40len]
          omega
        rw [hfb]
        refine ⟨gnd, hlen, ?_⟩
        intro hcond
        rcases hcond href with hlong | hzero
        · exact absurd hshort (Nat.not_lt.mpr hlong)
        · exact absurd hzero hemp
    · have hcall : (get_pattern cfg shuffled s history round).1 =
          generate_pattern cfg history := by
        simp only [get_pattern]
        rw [if_pos href, if_neg hshort]
      obtain ⟨hl, hsort⟩ := generate_pattern_spec cfg history h40
      rw [hcall]
      exact ⟨hsort.nodup, hl, fun _ => hsort⟩
  · have hcall : (get_pattern cfg shuffled s history round).1 =
        s.current_pattern := by
      simp only [get_pattern]
      rw [if_neg href]
    have hne : s.current_pattern ≠ [] := by
      intro hnil
      exact href (Or.inl (by rw [hnil]; rfl))
    rcases hs with hnil | ⟨hsort, hlen⟩
    · exact absurd hnil hne
    · rw [hcall]
      exact ⟨hsort.nodup, hlen, fun _ => hsort⟩

/-- Witness for C5's amended statement on a refresh call with sufficient
history. -/
theorem pattern_shape_spec_witness :
    ((get_pattern cfgC5w (List.range' 1 40) GenState.init
      [R [1], R [2]] 7).1).Nodup ∧
    ((get_pattern cfgC5w (List.range' 1 40) GenState.init
      [R [1], R [2]] 7).1).length = cfgC5w.pattern_size ∧
    ((get_pattern cfgC5w (List.range' 1 40) GenState.init
      [R [1], R [2]] 7).1).Sorted (· < ·) := by
  have h := pattern_shape_spec cfgC5w (List.range' 1 40) GenState.init
    [R [1], R [2]] 7 (by decide) (List.Perm.refl _) (Or.inl rfl)
  exact ⟨h.1, h.2.1, h.2.2 (fun _ => Or.inl (by decide))⟩

/-- Crediting one key changes exactly that key's score. -/
theorem scoreOf_bumpScore (key key' : List ℕ) (w : ℚ) :
    ∀ m : List (List ℕ × ℚ),
    scoreOf (bumpScore m key w) key' =
      scoreOf m key' + (if key = key' then w else 0) := by
  intro m
  induction m with
  | nil =>
    by_cases h : key = key' <;> simp [bumpScore, scoreOf, h]
  | cons e rest ih =>
    obtain ⟨k, v⟩ := e
    by_cases hk : k = key
    · subst hk
      by_cases h2 : k = key' <;> simp [bumpScore, scoreOf, h2]
    · by_cases h2 : k = key'
      · subst h2
        have : ¬key = k := fun h => hk h.symm
        simp [bumpScore, scoreOf, hk, this]
      · simp [bumpScore, scoreOf, hk, h2, ih]

/-- Credit of one round's combinations, seen through `scoreOf`. -/
theorem scoreOf_foldl_bump (key : List ℕ) (w : ℚ) :
    ∀ (combos : List (List ℕ)) (m : List (List ℕ × ℚ)),
    scoreOf (combos.foldl (fun m c =>
      bumpScore m (c.insertionSort (· ≤ ·)) w) m) key =
      scoreOf m key +
        w * ((combos.countP (fun c =>
          decide (c.insertionSort (· ≤ ·) = key))) : ℚ) := by
  intro combos
  induction combos with
  | nil => intro m; simp
  | cons c rest ih =>
    intro m
    simp only [List.foldl_cons, ih, scoreOf_bumpScore, List.countP_cons]
    by_cases h : c.insertionSort (· ≤ ·) = key
    · simp only [h, if_pos rfl, decide_eq_true_eq, if_pos]
      push_cast
      ring
    · have hd : ¬(decide (c.insertionSort (· ≤ ·) = key) = true) := by
        simpa using h
      rw [if_neg h, if_neg hd]
      push_cast
      ring

/-- The accumulated score of a key is the claimed per-round weighted sum. -/
theorem scoreOf_accumRounds (psize : ℕ) (ur : Bool) (decay : ℚ)
    (total : ℕ) (key : List ℕ) :
    ∀ (rounds : List RoundData) (idx : ℕ) (m : List (List ℕ × ℚ)),
    scoreOf (accumRounds psize ur decay total rounds idx m) key =
      scoreOf m key + specScoreFrom psize ur decay total rounds idx key := by
  intro rounds
  induction rounds with
  | nil => intro idx m; simp [accumRounds, specScoreFrom]
  | cons r rest ih =>
    intro idx m
    simp only [accumRounds, specScoreFrom, ih, scoreOf_foldl_bump]
    ring

/-- `bumpScore` either reuses an existing key slot or appends a fresh
one. -/
theorem bumpScore_keys (key : List ℕ) (w : ℚ) :
    ∀ m : List (List ℕ × ℚ),
    (key ∈ m.map Prod.fst →
      (bumpScore m key w).map Prod.fst = m.map Prod.fst) ∧
    (key ∉ m.map Prod.fst →
      (bumpScore m key w).map Prod.fst = m.map Prod.fst ++ [key]) := by
  intro m
  induction m with
  | nil =>
    constructor
    · intro h; simp at h
    · intro _; rfl
  | cons e rest ih =>
    obtain ⟨k, v⟩ := e
    by_cases hk : k = key
    · subst hk
      constructor
      · intro _; simp [bumpScore]
      · intro h; exact absurd (by simp) h
    · constructor
      · intro h
        have hmem : key ∈ rest.map Prod.fst := by
          rcases List.mem_cons.mp h with h1 | h2
          · exact absurd h1.symm hk
          · exact h2
        simp [bumpScore, hk, ih.1 hmem]
      · intro h
        have hmem : key ∉ rest.map Prod.fst := fun hm =>
          h (List.mem_cons_of_mem _ hm)
        simp [bumpScore, hk, ih.2 hmem]

/-- `bumpScore` keeps the keys distinct. -/
theorem keysNodup_bump (key : List ℕ) (w : ℚ) (m : List (List ℕ × ℚ))
    (h : (m.map Prod.fst).Nodup) :
    ((bumpScore m key w).map Prod.fst).Nodup := by
  by_cases hk : key ∈ m.map Prod.fst
  · rw [(bumpScore_keys key w m).1 hk]; exact h
  · rw [(bumpScore_keys key w m).2 hk]
    refine h.append (List.nodup_singleton key) ?_
    intro a ha hb
    rw [List.mem_singleton] at hb
    subst hb
    exact hk ha

/-- Invariants survive a left fold when each step preserves them. -/
theorem foldl_preserve {α β : Type} (P : β → Prop) (step : β → α → β)
    (hstep : ∀ b a, P b → P (step b a)) :
    ∀ (l : List α) (b : β), P b → P (l.foldl step b) := by
  intro l
  induction l with
  | nil => intro b h; exact h
  | cons a t ih => intro b h; exact ih _ (hstep b a h)

/-- The accumulated score map keeps its keys distinct. -/
theorem keysNodup_accumRounds (psize : ℕ) (ur : Bool) (decay : ℚ)
    (total : ℕ) :
    ∀ (rounds : List RoundData) (idx : ℕ) (m : List (List ℕ × ℚ)),
    (m.map Prod.fst).Nodup →
    ((accumRounds psize ur decay total rounds idx m).map Prod.fst).Nodup := by
  intro rounds
  induction rounds with
  | nil => intro idx m h; exact h
  | cons r rest ih =>
    intro idx m h
    simp only [accumRounds]
    refine ih (idx + 1) _ ?_
    exact foldl_preserve
      (fun m : List (List ℕ × ℚ) => (m.map Prod.fst).Nodup) _
      (fun b a hb => keysNodup_bump _ _ b hb) _ m h

/-- With distinct keys, an entry's stored value is its looked-up score. -/
theorem scoreOf_of_mem :
    ∀ m : List (List ℕ × ℚ), (m.map Prod.fst).Nodup →
    ∀ k v, (k, v) ∈ m → scoreOf m k = v := by
  intro m
  induction m with
  | nil => intro _ k v hm; simp at hm
  | cons e rest ih =>
    obtain ⟨k0, v0⟩ := e
    intro hnd k v hm
    rcases List.mem_cons.mp hm with h1 | h2
    · obtain ⟨hk, hv⟩ := Prod.mk.injEq .. ▸ h1
      injection h1 with hk hv
      subst hk; subst hv
      simp [scoreOf]
    · have hk : k0 ≠ k := by
        intro he
        subst he
        have : k0 ∈ rest.map Prod.fst :=
          List.mem_map.mpr ⟨(k0, v), h2, rfl⟩
        exact (List.nodup_cons.mp (by simpa using hnd)).1 this
      simp only [scoreOf, if_neg hk]
      exact ih (List.nodup_cons.mp (by simpa using hnd)).2 k v h2

/-- C6: every entry returned by `find_common_patterns` carries the score
accumulated as the claimed per-round weighted combination count (weight 1
unweighted, `decay ^ age` with age 0 at the window's end under recency
weighting); the output is ordered by descending score and holds at most
`top_n` entries. -/
theorem pattern_discovery_spec (history : List RoundData)
    (psize top_n discovery_window : ℕ) (ur : Bool) (decay : ℚ) :
    (∀ e ∈ find_common_patterns history psize top_n discovery_window ur
      decay,
      e.2 = specScoreFrom psize ur decay
        (lastSlice history discovery_window).length
        (lastSlice history discovery_window) 0 e.1) ∧
    (find_common_patterns history psize top_n discovery_window ur
      decay).Sorted (fun a b => b.2 ≤ a.2) ∧
    (find_common_patterns history psize top_n discovery_window ur
      decay).length ≤ top_n := by
  have hnd : ((discoveryScores history psize discovery_window ur
      decay).map Prod.fst).Nodup := by
    unfold discoveryScores
    exact keysNodup_accumRounds psize ur decay _ _ 0 [] (by simp)
  refine ⟨?_, ?_, ?_⟩
  · intro e he
    obtain ⟨k, v⟩ := e
    have hmem : (k, v) ∈ discoveryScores history psize discovery_window ur
        decay := by
      have h1 := List.mem_of_mem_take he
      exact (List.perm_insertionSort _ _).mem_iff.mp h1
    have h2 := scoreOf_of_mem _ hnd k v hmem
    have h3 : scoreOf (discoveryScores history psize discovery_window ur
        decay) k = specScoreFrom psize ur decay
        (lastSlice history discovery_window).length
        (lastSlice history discovery_window) 0 k := by
      unfold discoveryScores
      rw [scoreOf_accumRounds]
      simp [scoreOf]
    rw [← h3, h2]
  · letI : IsTotal (List ℕ × ℚ) (fun a b => b.2 ≤ a.2) :=
      ⟨fun a b => le_total b.2 a.2⟩
    letI : IsTrans (List ℕ × ℚ) (fun a b => b.2 ≤ a.2) :=
      ⟨fun _ _ _ hab hbc => le_trans hbc hab⟩
    refine List.Pairwise.sublist (List.take_sublist _ _) ?_
    exact List.sorted_insertionSort _ _
  · exact List.length_take_le _ _

/-- Witness for C6 on a one-round window. -/
theorem pattern_discovery_spec_witness :
    (1 : ℚ) = specScoreFrom 1 false 1 (lastSlice [R [1]] 10).length
      (lastSlice [R [1]] 10) 0 [1] := by
  have h := (pattern_discovery_spec [R [1]] 1 5 10 false 1).1
    ([1], (1 : ℚ)) (by decide)
  exact h

/-- `specScoreFrom` without recency weighting is a plain sum of per-round
combination counts, independent of the position parameters. -/
theorem specScoreFrom_false (psize : ℕ) (decay : ℚ) (key : List ℕ) :
    ∀ (rounds : List RoundData) (total idx : ℕ),
    specScoreFrom psize false decay total rounds idx key =
      (rounds.map (fun r =>
        (((List.sublistsLen psize (get_drawn_numbers r)).countP
          (fun c => decide (c.insertionSort (· ≤ ·) = key))) : ℚ))).sum := by
  intro rounds
  induction rounds with
  | nil => intro total idx; rfl
  | cons r rest ih =>
    intro total idx
    simp [specScoreFrom, ih, one_mul]

/-- `lastSlice` over a window at least as long as the list is the list. -/
theorem lastSlice_of_le {α : Type} (l : List α) (k : ℕ)
    (h : l.length ≤ k) : lastSlice l k = l := by
  unfold lastSlice
  split
  · rfl
  · have : l.length - k = 0 := by omega
    rw [this, List.drop_zero]

unseal Rat.mul Rat.inv Rat.add Rat.sub in
/-- C7: without recency weighting the accumulated discovery scores are
invariant under any permutation of the rounds inside the window; with
recency weighting they are not — the window `[1],[2]` scores the pattern
`[1]` as `98/100` but its reordering `[2],[1]` scores it 1. -/
theorem discovery_reorder_spec :
    (∀ (s1 s2 : List RoundData) (psize w : ℕ) (decay : ℚ) (key : List ℕ),
      List.Perm s1 s2 → s1.length ≤ w →
      scoreOf (discoveryScores s1 psize w false decay) key =
        scoreOf (discoveryScores s2 psize w false decay) key) ∧
    (List.Perm [R [1], R [2]] [R [2], R [1]] ∧
      scoreOf (discoveryScores [R [1], R [2]] 1 2 true (98/100)) [1] ≠
        scoreOf (discoveryScores [R [2], R [1]] 1 2 true (98/100)) [1]) := by
  constructor
  · intro s1 s2 psize w decay key hperm hle
    have hle2 : s2.length ≤ w := by rw [← hperm.length_eq]; exact hle
    unfold discoveryScores
    rw [lastSlice_of_le s1 w hle, lastSlice_of_le s2 w hle2,
      scoreOf_accumRounds, scoreOf_accumRounds,
      specScoreFrom_false, specScoreFrom_false]
    have := (hperm.map (fun r =>
      (((List.sublistsLen psize (get_drawn_numbers r)).countP
        (fun c => decide (c.insertionSort (· ≤ ·) = key))) : ℚ))).sum_eq
    rw [this]
  · exact ⟨List.Perm.swap (R [2]) (R [1]) [], by decide⟩

/-- Witness for C7's permutation-invariance part on a two-round window. -/
theorem discovery_reorder_spec_witness :
    scoreOf (discoveryScores [R [1], R [2]] 1 2 false 1) [1] =
      scoreOf (discoveryScores [R [2], R [1]] 1 2 false 1) [1] :=
  discovery_reorder_spec.1 [R [1], R [2]] [R [2], R [1]] 1 2 1 [1]
    (List.Perm.swap (R [2]) (R [1]) []) (by decide)

/-- Each backtest step counts one prediction and at most one completion. -/
theorem btStep_counts (cfg : Config) (shuffled : List ℕ)
    (bet_multis : Option PayoutTable) (difficulty : String)
    (history : List RoundData) (s : BTState) (i : ℕ) :
    (btStep cfg shuffled bet_multis difficulty history s i).total_predictions
      = s.total_predictions + 1 ∧
    ((btStep cfg shuffled bet_multis difficulty history s
        i).total_completions = s.total_completions ∨
      (btStep cfg shuffled bet_multis difficulty history s
        i).total_completions = s.total_completions + 1) := by
  unfold btStep
  cases bet_multis <;> dsimp only <;> split <;> split <;> simp

/-- The momentum backtest keeps completions bounded by predictions. -/
theorem run_backtest_counts (cfg : Config) (shuffled : List ℕ)
    (history : List RoundData) (bet_multis : Option PayoutTable)
    (difficulty : String) :
    (run_backtest cfg shuffled history bet_multis
      difficulty).total_completions ≤
    (run_backtest cfg shuffled history bet_multis
      difficulty).total_predictions := by
  unfold run_backtest
  dsimp only
  refine foldl_preserve
    (fun s : BTState => s.total_completions ≤ s.total_predictions) _
    ?_ _ _ (by simp)
  intro b a hb
  obtain ⟨h1, h2⟩ := btStep_counts cfg shuffled bet_multis difficulty
    history b a
  rcases h2 with h2 | h2 <;> omega

/-- Each pattern examined by `evaluate_predictions` adds at most one
success. -/
theorem predStep_successes (future : List RoundData)
    (lookahead psize : ℕ) (bet_multis : Option PayoutTable)
    (difficulty : String) (acc : PredAccum) (p : List ℕ) :
    (predStep future lookahead psize bet_multis difficulty acc p).successes
      ≤ acc.successes + 1 := by
  unfold predStep
  cases bet_multis <;> cases hci : completionIndex p.toFinset future <;>
    simp only [hci] <;> simp

/-- `evaluate_predictions` reports no more successes than predictions. -/
theorem evaluate_predictions_successes_le (history : List RoundData)
    (current_idx : ℕ) (patterns : List (List ℕ)) (lookahead psize : ℕ)
    (bet_multis : Option PayoutTable) (difficulty : String) :
    (evaluate_predictions history current_idx patterns lookahead psize
      bet_multis difficulty).2.1 ≤
    (evaluate_predictions history current_idx patterns lookahead psize
      bet_multis difficulty).1 := by
  unfold evaluate_predictions
  split
  · simp
  · dsimp only
    have key : ∀ (ps : List (List ℕ)) (acc : PredAccum),
        (ps.foldl (predStep ((history.drop current_idx).take lookahead)
          lookahead psize bet_multis difficulty) acc).successes ≤
          acc.successes + ps.length := by
      intro ps
      induction ps with
      | nil => intro acc; simp
      | cons p t ih =>
        intro acc
        calc (List.foldl _ (predStep _ lookahead psize bet_multis
              difficulty acc p) t).successes
            ≤ (predStep _ lookahead psize bet_multis difficulty acc
              p).successes + t.length := ih _
          _ ≤ acc.successes + 1 + t.length :=
              Nat.add_le_add_right (predStep_successes _ _ _ _ _ _ _) _
          _ = acc.successes + (p :: t).length := by simp; omega
    have := key patterns ⟨0, 0, [], []⟩
    simpa using this

/-- The optimizer's backtest keeps successes bounded by predictions. -/
theorem opt_run_backtest_counts (history : List RoundData)
    (params : OptParams) (psize : ℕ) (bet_multis : Option PayoutTable)
    (difficulty : String) (use_recency : Bool) (decay : ℚ) :
    (opt_run_backtest history params psize bet_multis difficulty
      use_recency decay).total_successes ≤
    (opt_run_backtest history params psize bet_multis difficulty
      use_recency decay).total_predictions := by
  unfold opt_run_backtest
  dsimp only
  refine foldl_preserve
    (fun s : OptState => s.total_successes ≤ s.total_predictions) _
    ?_ _ _ (by simp)
  intro b a hb
  unfold optStep
  dsimp only
  split
  · exact hb
  · split
    · exact hb
    · dsimp only
      exact Nat.add_le_add hb
        (evaluate_predictions_successes_le _ _ _ _ _ _ _)

/-- A success rate of the shape `if 0 < p then c / p * 100 else 0` with
`c ≤ p` lies in `[0, 100]` and vanishes exactly when `c` does. -/
theorem rate_shape (c p : ℕ) (hcp : c ≤ p) :
    (0 ≤ (if 0 < p then (c : ℚ) / (p : ℚ) * 100 else 0) ∧
      (if 0 < p then (c : ℚ) / (p : ℚ) * 100 else 0) ≤ 100) ∧
    ((if 0 < p then (c : ℚ) / (p : ℚ) * 100 else 0) = 0 ↔ c = 0) := by
  by_cases hp : 0 < p
  · have hp0 : (p : ℚ) ≠ 0 := by
      exact_mod_cast Nat.pos_iff_ne_zero.mp hp
    have hppos : (0 : ℚ) < (p : ℚ) := by exact_mod_cast hp
    rw [if_pos hp]
    constructor
    · constructor
      · positivity
      · have h1 : (c : ℚ) / (p : ℚ) ≤ 1 := by
          rw [div_le_one hppos]
          exact_mod_cast hcp
        calc (c : ℚ) / (p : ℚ) * 100 ≤ 1 * 100 := by
              exact mul_le_mul_of_nonneg_right h1 (by norm_num)
          _ = 100 := by norm_num
    · constructor
      · intro h
        rcases mul_eq_zero.mp h with h1 | h1
        · rcases div_eq_zero_iff.mp h1 with h2 | h2
          · exact_mod_cast h2
          · exact absurd h2 hp0
        · norm_num at h1
      · intro h
        subst h
        simp
  · have hpz : p = 0 := Nat.eq_zero_of_not_pos hp
    rw [if_neg hp]
    refine ⟨⟨le_refl 0, by norm_num⟩, ?_⟩
    constructor
    · intro _; omega
    · intro _; rfl

set_option maxRecDepth 10000 in
unseal Rat.mul Rat.inv Rat.add Rat.sub in
/-- C9 counterexample: a completed momentum backtest over 132 all-`[1]`
rounds makes exactly one prediction, no completion, and reports a success
rate of 0 — so `success_rate = 0` does not imply
`total_predictions = 0`. -/
theorem success_rate_divergence :
    (run_backtest cfgC9 [] histC9 none "high").success_rate = 0 ∧
    ¬(run_backtest cfgC9 [] histC9 none "high").total_predictions = 0 := by
  constructor
  · decide
  · decide

/-- C9 amended: for both backtest harnesses the returned success rate lies
in `[0, 100]`, and it is 0 exactly when the completion (success) counter is
0 — which includes, but is not limited to, runs with zero predictions. -/
theorem success_rate_spec :
    (∀ (cfg : Config) (shuffled : List ℕ) (history : List RoundData)
      (bet_multis : Option PayoutTable) (difficulty : String),
      (0 ≤ (run_backtest cfg shuffled history bet_multis
          difficulty).success_rate ∧
        (run_backtest cfg shuffled history bet_multis
          difficulty).success_rate ≤ 100) ∧
      ((run_backtest cfg shuffled history bet_multis
          difficulty).success_rate = 0 ↔
        (run_backtest cfg shuffled history bet_multis
          difficulty).total_completions = 0)) ∧
    (∀ (history : List RoundData) (params : OptParams) (psize : ℕ)
      (bet_multis : Option PayoutTable) (difficulty : String)
      (use_recency : Bool) (decay : ℚ),
      (0 ≤ (opt_run_backtest history params psize bet_multis difficulty
          use_recency decay).success_rate ∧
        (opt_run_backtest history params psize bet_multis difficulty
          use_recency decay).success_rate ≤ 100) ∧
      ((opt_run_backtest history params psize bet_multis difficulty
          use_recency decay).success_rate = 0 ↔
        (opt_run_backtest history params psize bet_multis difficulty
          use_recency decay).total_successes = 0)) := by
  constructor
  · intro cfg shuffled history bet_multis difficulty
    have hcp := run_backtest_counts cfg shuffled history bet_multis
      difficulty
    exact rate_shape _ _ hcp
  · intro history params psize bet_multis difficulty use_recency decay
    have hcp := opt_run_backtest_counts history params psize bet_multis
      difficulty use_recency decay
    exact rate_shape _ _ hcp

/-- C1: for positive configured windows, `calculate_momentum` returns the
undefined sentinel `none` exactly when `len(history) < baseline_window`;
when the history is long enough and the baseline-window count is 0 it
returns the sentinel 999 if the detection-window count is positive and 0
otherwise; and on the only branch that divides by the baseline frequency,
that divisor is nonzero (all other divisors are the positive window sizes),
so no division-by-zero fault can occur. -/
theorem momentum_sentinel_spec (cfg : Config) (number : ℕ)
    (history : List RoundData) (hdw : 0 < cfg.detection_window)
    (hbw : 0 < cfg.baseline_window) :
    (calculate_momentum cfg number history = none ↔
      history.length < cfg.baseline_window) ∧
    (cfg.baseline_window ≤ history.length →
      baseline_count cfg number history = 0 →
      calculate_momentum cfg number history =
        some (if 0 < recent_count cfg number history then 999 else 0)) ∧
    (cfg.baseline_window ≤ history.length →
      baseline_count cfg number history ≠ 0 →
      ((baseline_count cfg number history : ℚ) /
          (cfg.baseline_window : ℚ) ≠ 0 ∧
        calculate_momentum cfg number history =
          some (((recent_count cfg number history : ℚ) /
              (cfg.detection_window : ℚ)) /
            ((baseline_count cfg number history : ℚ) /
              (cfg.baseline_window : ℚ))))) ∧
    ((cfg.detection_window : ℚ) ≠ 0 ∧ (cfg.baseline_window : ℚ) ≠ 0) := by
  refine ⟨?_, ?_, ?_, ?_, ?_⟩
  · by_cases h : history.length < cfg.baseline_window <;>
      simp [calculate_momentum, h]
    split <;> (try split) <;> simp
  · intro hlen hbc
    simp [calculate_momentum, Nat.not_lt.mpr hlen, hbc]
    split <;> rfl
  · intro hlen hbc
    have hb0 : ((cfg.baseline_window : ℚ)) ≠ 0 := by
      exact_mod_cast Nat.pos_iff_ne_zero.mp hbw
    have hfreq : (baseline_count cfg number history : ℚ) /
        (cfg.baseline_window : ℚ) ≠ 0 :=
      div_ne_zero (by exact_mod_cast hbc) hb0
    refine ⟨hfreq, ?_⟩
    simp only [calculate_momentum, Nat.not_lt.mpr hlen, if_false, if_neg hfreq]
  · exact_mod_cast Nat.pos_iff_ne_zero.mp hdw
  · exact_mod_cast Nat.pos_iff_ne_zero.mp hbw

/-- Witness for C1: with windows 1/1 and a one-round history not containing
the number 2, the momentum is the zero sentinel. -/
theorem momentum_sentinel_spec_witness :
    calculate_momentum ⟨1, 1, 1, 3/2, 5, 15⟩ 2 [R [1]] = some 0 := by
  have h := (momentum_sentinel_spec ⟨1, 1, 1, 3/2, 5, 15⟩ 2 [R [1]]
    (by decide) (by decide)).2.1 (by decide) (by decide)
  rw [h]
  norm_num [recent_count, lastSlice, get_drawn_numbers, R]

/-- C8: with a shorter available future than the lookahead, both evaluators
return the all-zero no-data result and never index out of range. -/
theorem evaluator_insufficient_future :
    (∀ (history : List RoundData) (pattern : List ℕ) (lookahead : ℕ)
      (bet_multis : Option PayoutTable) (difficulty : String),
      history.length < lookahead →
      evaluate_pattern_performance history pattern lookahead bet_multis
        difficulty = ⟨false, 0, 0⟩) ∧
    (∀ (history : List RoundData) (current_idx : ℕ)
      (patterns : List (List ℕ)) (lookahead psize : ℕ)
      (bet_multis : Option PayoutTable) (difficulty : String),
      history.length < current_idx + lookahead →
      evaluate_predictions history current_idx patterns lookahead psize
        bet_multis difficulty = (0, 0, 0, 0, 0)) := by
  constructor
  · intro history pattern lookahead bet_multis difficulty h
    simp [evaluate_pattern_performance, h]
  · intro history current_idx patterns lookahead psize bet_multis difficulty h
    simp [evaluate_predictions, h]

/-- Witness for C8 at a concrete short history. -/
theorem evaluator_insufficient_future_witness :
    evaluate_pattern_performance [R [1]] [1] 2 none "high" = ⟨false, 0, 0⟩ ∧
    evaluate_predictions [R [1]] 1 [[1]] 2 1 none "high" = (0, 0, 0, 0, 0) :=
  ⟨evaluator_insufficient_future.1 [R [1]] [1] 2 none "high" (by decide),
   evaluator_insufficient_future.2 [R [1]] 1 [[1]] 2 1 none "high" (by decide)⟩

/-- C10: when the refresh condition triggers but the history is shorter than
the baseline window, `get_pattern` returns the fallback pattern with the
generator state (current pattern and last refresh round) unchanged; and a
call with an empty cached pattern always takes the refresh path, whatever
the round number modulo the refresh frequency. -/
theorem fallback_leaves_state_unchanged :
    (∀ (cfg : Config) (shuffled : List ℕ) (s : GenState)
      (history : List RoundData) (round : ℕ),
      (s.current_pattern.length = 0 ∨ round % cfg.refresh_frequency = 0) →
      history.length < cfg.baseline_window →
      get_pattern cfg shuffled s history round =
        (get_fallback_pattern cfg shuffled history, s)) ∧
    (∀ (cfg : Config) (shuffled : List ℕ) (s : GenState)
      (history : List RoundData) (round : ℕ),
      s.current_pattern = [] →
      get_pattern cfg shuffled s history round =
        (if history.length < cfg.baseline_window then
          (get_fallback_pattern cfg shuffled history, s)
        else (generate_pattern cfg history,
          ⟨generate_pattern cfg history, round⟩))) := by
  constructor
  · intro cfg shuffled s history round hrefresh hshort
    simp only [get_pattern]
    rw [if_pos hrefresh, if_pos hshort]
  · intro cfg shuffled s history round hempty
    have h0 : s.current_pattern.length = 0 ∨
        round % cfg.refresh_frequency = 0 := Or.inl (by simp [hempty])
    simp only [get_pattern]
    rw [if_pos h0]

/-- Witness for C10: a concrete short-history refresh call leaves the
initial state untouched and is recomputed at a non-refresh round. -/
theorem fallback_leaves_state_unchanged_witness :
    get_pattern ⟨2, 1, 5, 3/2, 5, 15⟩ [] GenState.init [R [1]] 7 =
      (get_fallback_pattern ⟨2, 1, 5, 3/2, 5, 15⟩ [] [R [1]], GenState.init) :=
  fallback_leaves_state_unchanged.1 ⟨2, 1, 5, 3/2, 5, 15⟩ [] GenState.init
    [R [1]] 7 (Or.inl (by decide)) (by decide)

end KenoStats
